import Mathlib

/-!
Verification development for `pkg/extension/lint.go` of the ksbuilder
repository: Helm-chart lint orchestration (`WithHelm`), extension-rule
checks (`lintExtensionsImages`, `lintGlobalImageRegistry`,
`lintGlobalNodeSelector`), and subchart discovery.

The Go code is shallowly embedded:
* decoded YAML documents (`map[string]any` produced by `yaml.Unmarshal`)
  become the inductive `YVal` / assoc-list maps (`YMap`);
* Go's non-ok type assertions (`x.(map[string]any)`, `x.(string)`), which
  panic at runtime when the dynamic type differs, become `Except Unit`
  with `.error ()` standing for the panic;
* Go's comma-ok assertion `x.([]any)` becomes an `Option`;
* external calls (template rendering, chart/metadata loading, the helm
  lint engine, `filepath.Walk`'s traversal) are inputs of the embedded
  functions: rendered files arrive as explicit lists, loaders as
  `String → Except _ _` parameters, and the walk as a list of callback
  events — the callback itself is embedded from the source;
* YAML numbers are modelled as `Int` (no claim inspects numeric values).
-/

/-- A decoded YAML/JSON value, as produced by `yaml.Unmarshal` into
`map[string]any` in the Go source (`nil`, `bool`, number, `string`,
`[]any`, `map[string]any`). -/
inductive YVal where
  | null
  | bool (b : Bool)
  | num (n : Int)
  | str (s : String)
  | arr (xs : List YVal)
  | map (kvs : List (String × YVal))

/-- A decoded mapping (`map[string]any`), as an association list. -/
abbrev YMap := List (String × YVal)

/-- Go map indexing `m[k]`: the value at the key, or `nil` when absent. -/
def ymGet : YMap → String → YVal
  | [], _ => .null
  | (k, v) :: rest, key => if k = key then v else ymGet rest key

/-- Total lookup on a `YVal`: Go's `m[k]` after a successful map
assertion; yields `null` on non-maps (used only on the spec side). -/
def vGet : YVal → String → YVal
  | .map m, k => ymGet m k
  | _, _ => .null

/-- Go's non-ok assertion `x.(map[string]any)`: panics (`.error ()`)
unless the dynamic value is a map. -/
def YVal.asMapE : YVal → Except Unit YMap
  | .map m => .ok m
  | _ => .error ()

/-- Go's non-ok assertion `x.(string)`. -/
def YVal.asStrE : YVal → Except Unit String
  | .str s => .ok s
  | _ => .error ()

/-- Go's comma-ok assertion `x.([]any)`. -/
def YVal.asArrOk : YVal → Option (List YVal)
  | .arr xs => some xs
  | _ => none

/-- Go's equality between an `any` value and a `string` (as in
`… != key`): true exactly when the dynamic type is `string` and the
contents agree. -/
def YVal.eqStr : YVal → String → Bool
  | .str t, s => t == s
  | _, _ => false

/-- Go's `x == nil` on an `any` value. -/
def YVal.isNull : YVal → Bool
  | .null => true
  | _ => false

/-- The chained map assertions of the Go source
(`yamlMap["spec"].(map[string]any)["template"].(map[string]any)…`):
descend through the given keys, asserting a map at every step. -/
def descend : YMap → List String → Except Unit YMap
  | m, [] => .ok m
  | m, k :: ks =>
    match (ymGet m k).asMapE with
    | .error e => .error e
    | .ok m' => descend m' ks

/-- Total descent through keys (spec side). -/
def pathVal : YVal → List String → YVal
  | v, [] => v
  | v, k :: ks => pathVal (vGet v k) ks

/-- `strings.Contains` on character lists: does `sub` occur in the list? -/
def charsContain (sub : List Char) : List Char → Bool
  | [] => sub.isEmpty
  | c :: rest => sub.isPrefixOf (c :: rest) || charsContain sub rest

/-- Go's `strings.Contains s sub` (the empty string occurs in every
string). -/
def goContains (s sub : String) : Bool := charsContain sub.data s.data

/-- Go's `strings.HasSuffix`, on the underlying character lists. -/
def goHasSuffix (s suf : String) : Bool := suf.data.isSuffixOf s.data

/-- `strings.HasSuffix(name, ".yaml") || strings.HasSuffix(name, ".yml")`:
the source's "only find in yaml files" filter. -/
def isYamlName (n : String) : Bool := goHasSuffix n ".yaml" || goHasSuffix n ".yml"

/-- `yamlMap["metadata"].(map[string]any)["name"]`, evaluated by the Go
source inside the report `Printf` (panics when `metadata` is not a map). -/
def metaNameE (doc : YMap) : Except Unit YVal :=
  match (ymGet doc "metadata").asMapE with
  | .error e => .error e
  | .ok md => .ok (ymGet md "name")

/-- Total form of the resource name `metadata.name` (spec side). -/
def metaName (doc : YMap) : YVal := vGet (vGet (.map doc) "metadata") "name"

/-- One finding of `lintGlobalNodeSelector`: the Printf
`ERROR: golobal.nodeSelector doesn't work … file: %s Resource: {kind %s, name:%s }`
identifies the file, the resource kind and the resource name. -/
structure NSReport where
  file : String
  kind : String
  name : YVal

/-- One finding of `lintGlobalImageRegistry`: the Printf identifies the
container (`c["name"]`), whether it was an init container, the file, the
resource kind and the resource name. -/
structure RegReport where
  container : YVal
  isInit : Bool
  file : String
  kind : String
  name : YVal

/-- The nodeSelector check shared by every branch of the source's switch:
`pspec["nodeSelector"] == nil || pspec["nodeSelector"].(map[string]any)["kubernetes.io/os"] != key`,
reporting on success of the (panic-prone) metadata lookup. -/
def nodeSelCheck (key fname kindStr : String) (doc pspec : YMap) :
    Except Unit (List NSReport) :=
  let ns := ymGet pspec "nodeSelector"
  if ns.isNull then
    match metaNameE doc with
    | .error e => .error e
    | .ok nm => .ok [⟨fname, kindStr, nm⟩]
  else
    match ns.asMapE with
    | .error e => .error e
    | .ok nsm =>
      if (ymGet nsm "kubernetes.io/os").eqStr key then .ok []
      else
        match metaNameE doc with
        | .error e => .error e
        | .ok nm => .ok [⟨fname, kindStr, nm⟩]

/-- Rule B (`lintGlobalNodeSelector`) on a single decoded document: the
source's `switch yamlMap["kind"]`. Note the workload case list is
`"Deployment", "StatefulSet", "ReplicaSet", "Job"` — `DaemonSet` is not
among them. -/
def lintNodeSelectorDoc (key fname : String) (doc : YMap) :
    Except Unit (List NSReport) :=
  match ymGet doc "kind" with
  | .str k =>
    if k = "Deployment" ∨ k = "StatefulSet" ∨ k = "ReplicaSet" ∨ k = "Job" then
      match descend doc ["spec", "template", "spec"] with
      | .error e => .error e
      | .ok pspec => nodeSelCheck key fname k doc pspec
    else if k = "Pod" then
      match descend doc ["spec"] with
      | .error e => .error e
      | .ok pspec => nodeSelCheck key fname k doc pspec
    else if k = "CronJob" then
      match descend doc ["spec", "jobTemplate", "spec", "template", "spec"] with
      | .error e => .error e
      | .ok pspec => nodeSelCheck key fname k doc pspec
    else .ok []
  | _ => .ok []

/-- Rule B over the decoded documents of one file (the `for _, y :=
range yamlArr` loop). -/
def lintNodeSelectorDocs (key fname : String) : List YMap → Except Unit (List NSReport)
  | [] => .ok []
  | d :: ds =>
    match lintNodeSelectorDoc key fname d with
    | .error e => .error e
    | .ok rs =>
      match lintNodeSelectorDocs key fname ds with
      | .error e => .error e
      | .ok rest => .ok (rs ++ rest)

/-- A rendered template file together with its decoded YAML documents
(the source splits the rendered content on `---` and `yaml.Unmarshal`s
each piece; decoding is external, so documents arrive decoded). -/
structure RFile where
  name : String
  docs : List YMap

/-- Rule B (`lintGlobalNodeSelector`) over all rendered files: skip
non-`.yaml`/`.yml` names, check every document, `.error ()` models the
Go panic of a failed type assertion. -/
def lintGlobalNodeSelector (key : String) : List RFile → Except Unit (List NSReport)
  | [] => .ok []
  | f :: fs =>
    if isYamlName f.name then
      match lintNodeSelectorDocs key f.name f.docs with
      | .error e => .error e
      | .ok rs =>
        match lintGlobalNodeSelector key fs with
        | .error e => .error e
        | .ok rest => .ok (rs ++ rest)
    else lintGlobalNodeSelector key fs

/-- The per-container loop of `lintGlobalImageRegistry`: each entry is
asserted to a map (`c.(map[string]any)`), its `image` to a string, and
reported when the image does not contain the injected registry token. -/
def checkContainers (key fname kindStr : String) (doc : YMap) (isInit : Bool) :
    List YVal → Except Unit (List RegReport)
  | [] => .ok []
  | c :: cs =>
    match c.asMapE with
    | .error e => .error e
    | .ok cm =>
      match (ymGet cm "image").asStrE with
      | .error e => .error e
      | .ok img =>
        let head : Except Unit (List RegReport) :=
          if goContains img key then .ok []
          else
            match metaNameE doc with
            | .error e => .error e
            | .ok nm => .ok [⟨ymGet cm "name", isInit, fname, kindStr, nm⟩]
        match head with
        | .error e => .error e
        | .ok hrs =>
          match checkContainers key fname kindStr doc isInit cs with
          | .error e => .error e
          | .ok rest => .ok (hrs ++ rest)

/-- The body shared by the workload kinds of `lintGlobalImageRegistry`:
comma-ok assert `initContainers` and `containers` to `[]any` (skipping
silently when missing or not a list) and check each entry. -/
def regCheckPodSpec (key fname kindStr : String) (doc pspec : YMap) :
    Except Unit (List RegReport) :=
  let initRes : Except Unit (List RegReport) :=
    match (ymGet pspec "initContainers").asArrOk with
    | some cs => checkContainers key fname kindStr doc true cs
    | none => .ok []
  match initRes with
  | .error e => .error e
  | .ok irs =>
    match (ymGet pspec "containers").asArrOk with
    | some cs =>
      match checkContainers key fname kindStr doc false cs with
      | .error e => .error e
      | .ok crs => .ok (irs ++ crs)
    | none => .ok irs

/-- Rule C (`lintGlobalImageRegistry`) on a single decoded document: the
source's switch handles `"Deployment", "StatefulSet", "DaemonSet",
"ReplicaSet", "Job"` via `spec.template.spec`, `"Pod"` via `spec`, and
`"CronJob"` via `spec.jobTemplate.spec.template.spec`. -/
def lintImageRegistryDoc (key fname : String) (doc : YMap) :
    Except Unit (List RegReport) :=
  match ymGet doc "kind" with
  | .str k =>
    if k = "Deployment" ∨ k = "StatefulSet" ∨ k = "DaemonSet" ∨ k = "ReplicaSet" ∨ k = "Job" then
      match descend doc ["spec", "template", "spec"] with
      | .error e => .error e
      | .ok pspec => regCheckPodSpec key fname k doc pspec
    else if k = "Pod" then
      match descend doc ["spec"] with
      | .error e => .error e
      | .ok pspec => regCheckPodSpec key fname k doc pspec
    else if k = "CronJob" then
      match descend doc ["spec", "jobTemplate", "spec", "template", "spec"] with
      | .error e => .error e
      | .ok pspec => regCheckPodSpec key fname k doc pspec
    else .ok []
  | _ => .ok []

/-- Rule C over the decoded documents of one file. -/
def lintImageRegistryDocs (key fname : String) : List YMap → Except Unit (List RegReport)
  | [] => .ok []
  | d :: ds =>
    match lintImageRegistryDoc key fname d with
    | .error e => .error e
    | .ok rs =>
      match lintImageRegistryDocs key fname ds with
      | .error e => .error e
      | .ok rest => .ok (rs ++ rest)

/-- Rule C (`lintGlobalImageRegistry`) over all rendered files. -/
def lintGlobalImageRegistry (key : String) : List RFile → Except Unit (List RegReport)
  | [] => .ok []
  | f :: fs =>
    if isYamlName f.name then
      match lintImageRegistryDocs key f.name f.docs with
      | .error e => .error e
      | .ok rs =>
        match lintGlobalImageRegistry key fs with
        | .error e => .error e
        | .ok rest => .ok (rs ++ rest)
    else lintGlobalImageRegistry key fs

/-- Claim translation (Rule B): following the claim's words, a handled
resource violates the nodeSelector rule when, at the per-kind pod-spec
path, the field `nodeSelector` is absent or its `kubernetes.io/os` entry
is not the injected token. Total: broken intermediate objects count as
"the field is absent". -/
def nsViolationAt (key : String) (docv : YVal) (specPath : List String) : Bool :=
  !(vGet (pathVal docv (specPath ++ ["nodeSelector"])) "kubernetes.io/os").eqStr key

/-- Claim translation (Rule B), per document: the report the claim
demands for one decoded document. -/
def specNodeSelDocReports (key fname : String) (doc : YMap) : List NSReport :=
  match ymGet doc "kind" with
  | .str k =>
    if k = "Deployment" ∨ k = "StatefulSet" ∨ k = "ReplicaSet" ∨ k = "Job" then
      if nsViolationAt key (.map doc) ["spec", "template", "spec"] then
        [⟨fname, k, metaName doc⟩]
      else []
    else if k = "Pod" then
      if nsViolationAt key (.map doc) ["spec"] then [⟨fname, k, metaName doc⟩] else []
    else if k = "CronJob" then
      if nsViolationAt key (.map doc) ["spec", "jobTemplate", "spec", "template", "spec"] then
        [⟨fname, k, metaName doc⟩]
      else []
    else []
  | _ => []

/-- Claim translation (Rule B) over the documents of one file. -/
def specNodeSelDocsReports (key fname : String) : List YMap → List NSReport
  | [] => []
  | d :: ds => specNodeSelDocReports key fname d ++ specNodeSelDocsReports key fname ds

/-- Claim translation (Rule B) over all rendered files. -/
def specNodeSelReports (key : String) : List RFile → List NSReport
  | [] => []
  | f :: fs =>
    if isYamlName f.name then
      specNodeSelDocsReports key f.name f.docs ++ specNodeSelReports key fs
    else specNodeSelReports key fs

/-- Claim translation (Rule C), per container entry: report the container
unless its image is a string containing the token. -/
def specContainerReport (key fname kindStr : String) (doc : YMap) (isInit : Bool)
    (c : YVal) : List RegReport :=
  match c with
  | .map cm =>
    match ymGet cm "image" with
    | .str img =>
      if goContains img key then []
      else [⟨ymGet cm "name", isInit, fname, kindStr, metaName doc⟩]
    | _ => [⟨ymGet cm "name", isInit, fname, kindStr, metaName doc⟩]
  | _ => [⟨vGet c "name", isInit, fname, kindStr, metaName doc⟩]

/-- Claim translation (Rule C) over a container list. -/
def specContainersReports (key fname kindStr : String) (doc : YMap) (isInit : Bool) :
    List YVal → List RegReport
  | [] => []
  | c :: cs =>
    specContainerReport key fname kindStr doc isInit c ++
      specContainersReports key fname kindStr doc isInit cs

/-- Claim translation (Rule C) for one pod spec: every entry of
`initContainers` then of `containers`. -/
def specPodSpecReports (key fname kindStr : String) (doc : YMap) (pspecV : YVal) :
    List RegReport :=
  (match vGet pspecV "initContainers" with
   | .arr cs => specContainersReports key fname kindStr doc true cs
   | _ => []) ++
  (match vGet pspecV "containers" with
   | .arr cs => specContainersReports key fname kindStr doc false cs
   | _ => [])

/-- Claim translation (Rule C), per document. -/
def specRegDocReports (key fname : String) (doc : YMap) : List RegReport :=
  match ymGet doc "kind" with
  | .str k =>
    if k = "Deployment" ∨ k = "StatefulSet" ∨ k = "DaemonSet" ∨ k = "ReplicaSet" ∨ k = "Job" then
      specPodSpecReports key fname k doc (pathVal (.map doc) ["spec", "template", "spec"])
    else if k = "Pod" then
      specPodSpecReports key fname k doc (pathVal (.map doc) ["spec"])
    else if k = "CronJob" then
      specPodSpecReports key fname k doc
        (pathVal (.map doc) ["spec", "jobTemplate", "spec", "template", "spec"])
    else []
  | _ => []

/-- Claim translation (Rule C) over the documents of one file. -/
def specRegDocsReports (key fname : String) : List YMap → List RegReport
  | [] => []
  | d :: ds => specRegDocReports key fname d ++ specRegDocsReports key fname ds

/-- Claim translation (Rule C) over all rendered files. -/
def specRegReports (key : String) : List RFile → List RegReport
  | [] => []
  | f :: fs =>
    if isYamlName f.name then
      specRegDocsReports key f.name f.docs ++ specRegReports key fs
    else specRegReports key fs

/-- The message of `fmt.Printf("ERROR: image %s has not found\n", image)`. -/
def errMsgFor (img : String) : String := s!"ERROR: image {img} has not found"

/-- The message of `fmt.Printf("WARNING: extension %s has no images\n", extension)`. -/
def noImagesWarning (ext : String) : String := s!"WARNING: extension {ext} has no images"

/-- `lintExtensionsImages`' inner scan: is the image contained in some
rendered `.yaml`/`.yml` file's content (the `goto found` loop)? -/
def imageFoundIn (files : List (String × String)) (image : String) : Bool :=
  files.any fun f => isYamlName f.1 && goContains f.2 image

/-- The messages printed by `lintExtensionsImages`' image loop: one
"has not found" error per declared image that no rendered yaml file
contains, in declaration order. -/
def imagesScan (images : List String) (files : List (String × String)) : List String :=
  (images.filter fun i => !imageFoundIn files i).map errMsgFor

/-- Rule A (`lintExtensionsImages`): with no declared images, print one
warning and return nil without rendering; otherwise render (the
`render` input models `getTemplateFile`, whose failure propagates) and
scan. The returned list holds the printed findings; Rule A itself never
fails after rendering succeeds. -/
def lintExtensionsImages (ext : String) (images : List String)
    (render : Except Unit (List (String × String))) : Except Unit (List String) :=
  if images.isEmpty then .ok [noImagesWarning ext]
  else
    match render with
    | .error e => .error e
    | .ok files => .ok (imagesScan images files)

/-- Severity constants of `helm.sh/helm/v3/pkg/lint/support`
(`UnknownSev, InfoSev, WarningSev, ErrorSev = iota`). -/
def unknownSev : Nat := 0

/-- `support.InfoSev`. -/
def infoSev : Nat := 1

/-- `support.WarningSev`. -/
def warningSev : Nat := 2

/-- `support.ErrorSev`. -/
def errorSev : Nat := 3

/-- One `support.Message` of a lint result: its severity and its
rendered text (`msg.String()`). -/
structure LintMessage where
  severity : Nat
  text : String

/-- The `action.LintResult` for one chart as consumed by `WithHelm`:
severity-tagged messages plus the hard `Errors` slice (modelled by the
error strings). -/
structure LintResult where
  messages : List LintMessage
  errors : List String

/-- `action.HasWarningsOrErrors` of the helm library: some message has
warning or error severity, or the hard-error slice is nonempty. -/
def hasWarningsOrErrors (r : LintResult) : Bool :=
  (r.messages.any fun m => m.severity == warningSev || m.severity == errorSev) ||
    !r.errors.isEmpty

/-- The message lines printed for one chart: a message is printed when
`!o.Client.Quiet || msg.Severity > support.InfoSev`. -/
def msgLines (quiet : Bool) (r : LintResult) : List String :=
  r.messages.filterMap fun m =>
    if quiet = false ∨ infoSev < m.severity then some m.text else none

/-- The output block buffered for one non-skipped chart: the
`==> Linting` header, the raw `Error …` lines (only when there are no
messages), the filtered messages, and the closing blank line. -/
def chartBlock (quiet : Bool) (path : String) (r : LintResult) : List String :=
  [s!"==> Linting {path}"] ++
    (if r.messages.isEmpty then r.errors.map fun e => s!"Error {e}" else []) ++
    msgLines quiet r ++ [""]

/-- The mutable state of `WithHelm`'s chart loop: the buffered output
(`message strings.Builder`, as lines) and the `failed` /
`errorsOrWarnings` counters. -/
structure HelmLoopState where
  message : List String
  failed : Nat
  errorsOrWarnings : Nat

/-- One iteration of `WithHelm`'s chart loop, after the lint result for
`path` is obtained: count warnings/errors, skip the block in quiet mode
when the chart is clean, otherwise buffer the block and count a failure
when `len(result.Errors) != 0`. -/
def withHelmStep (quiet : Bool) (st : HelmLoopState) (path : String) (r : LintResult) :
    HelmLoopState :=
  let ew := st.errorsOrWarnings + (if hasWarningsOrErrors r then 1 else 0)
  if quiet && !hasWarningsOrErrors r then { st with errorsOrWarnings := ew }
  else
    { message := st.message ++ chartBlock quiet path r,
      failed := st.failed + (if r.errors.isEmpty then 0 else 1),
      errorsOrWarnings := ew }

/-- Chart metadata as passed around by `WithHelm`/`WithBuiltins`
(`LoadMetadata` + `ToChartYaml` combined); its internal structure is
irrelevant to the claims, an opaque tag suffices. -/
abbrev ChartMeta := String

/-- `WithHelm`'s chart loop. `first` is `paths[0]`: the source calls
`LoadMetadata(paths[0])` inside the loop, for every chart. `loadMeta`
combines the fallible `LoadMetadata` and `ToChartYaml` calls; `lintFn`
is the external `helm.Lint`. Returns the final state and the trace of
`(chart path, metadata)` pairs passed to the lint engine. -/
def helmLoop (quiet : Bool) (loadMeta : String → Except String ChartMeta)
    (lintFn : String → ChartMeta → LintResult) (first : String) :
    List String → HelmLoopState → Except String (HelmLoopState × List (String × ChartMeta))
  | [], st => .ok (st, [])
  | p :: ps, st =>
    match loadMeta first with
    | .error e => .error e
    | .ok m =>
      match helmLoop quiet loadMeta lintFn first ps (withHelmStep quiet st p (lintFn p m)) with
      | .error e => .error e
      | .ok (stF, tr) => .ok (stF, (p, m) :: tr)

/-- The summary string
`fmt.Sprintf("%d chart(s) linted, %d chart(s) failed", len(paths), failed)`. -/
def mkSummary (linted failed : Nat) : String :=
  s!"{linted} chart(s) linted, {failed} chart(s) failed"

/-- The observable outcome of `WithHelm`: either an early fatal return
(buffer unflushed) or completion with the flushed buffer, the summary,
whether the summary line was printed to stdout, and the returned error. -/
inductive HelmOut where
  | fatal (e : String)
  | done (printed : List String) (summary : String) (summaryPrinted : Bool)
      (err : Option String)

/-- `WithHelm` after subchart discovery: run the loop over the full path
list, flush the buffer, build the summary from `len(paths)` and
`failed`, return the summary as a non-nil error exactly when
`failed > 0`, and otherwise print it unless quiet with a fully clean
run. -/
def withHelm (quiet : Bool) (loadMeta : String → Except String ChartMeta)
    (lintFn : String → ChartMeta → LintResult) (paths : List String) : HelmOut :=
  let loopRes : Except String (HelmLoopState × List (String × ChartMeta)) :=
    match paths with
    | [] => .ok (⟨[], 0, 0⟩, [])
    | p0 :: _ => helmLoop quiet loadMeta lintFn p0 paths ⟨[], 0, 0⟩
  match loopRes with
  | .error e => .fatal e
  | .ok (st, _) =>
    let summary := mkSummary paths.length st.failed
    .done st.message summary
      (st.failed == 0 && (!quiet || st.errorsOrWarnings > 0))
      (if st.failed > 0 then some summary else none)

/-- The number of charts whose lint result has a nonzero hard-error
count, when every chart is linted against metadata `m`. -/
def failedCount (lintFn : String → ChartMeta → LintResult) (m : ChartMeta)
    (paths : List String) : Nat :=
  (paths.filter fun p => !(lintFn p m).errors.isEmpty).length

/-- One invocation of the `filepath.Walk` callback: the `path` argument,
`info.Name()` when `info != nil`, and the `err` argument (which the
source's callback never reads). -/
structure WalkEvent where
  path : String
  info : Option String
  err : Option String

/-- `filepath.Dir`, simplified to dropping the last `/`-separated
component (no claim depends on path cleaning). -/
def parentDir (p : String) : String :=
  let parts := p.splitOn "/"
  if parts.length ≤ 1 then "." else String.intercalate "/" parts.dropLast

/-- The walk callback of `WithHelm`'s subchart discovery: append the
directory of any `Chart.yaml`, append `.tgz`/`.tar.gz` paths, and
always return nil — the `err` argument is ignored. -/
def subchartWalkFn (paths : List String) (ev : WalkEvent) :
    List String × Option String :=
  match ev.info with
  | some nm =>
    if nm = "Chart.yaml" then (paths ++ [parentDir ev.path], none)
    else if goHasSuffix ev.path ".tgz" || goHasSuffix ev.path ".tar.gz" then
      (paths ++ [ev.path], none)
    else (paths, none)
  | none => (paths, none)

/-- `filepath.Walk`, observed through its callback invocations: the walk
returns the first non-nil value the callback returns, and nil when the
callback always returns nil (Go's `SkipDir`/`SkipAll` sentinels are
never produced by this callback). -/
def filepathWalk (fn : List String → WalkEvent → List String × Option String) :
    List String → List WalkEvent → List String × Option String
  | acc, [] => (acc, none)
  | acc, e :: es =>
    match fn acc e with
    | (acc', some err) => (acc', some err)
    | (acc', none) => filepathWalk fn acc' es

/-- The `for _, p := range paths` discovery loop of `WithHelm`: Go's
`range` iterates the original slice, so only the root paths are walked;
`walks p` lists the events of walking `filepath.Join(p, "charts")`. -/
def discoverSubcharts (walks : String → List WalkEvent) :
    List String → List String → Except String (List String)
  | acc, [] => .ok acc
  | acc, p :: ps =>
    match filepathWalk subchartWalkFn acc (walks p) with
    | (_, some e) => .error e
    | (acc', none) => discoverSubcharts walks acc' ps

/-- The discovery phase of `WithHelm`: walk subcharts only when
`o.Client.WithSubcharts` is set. -/
def discover (withSubcharts : Bool) (walks : String → List WalkEvent)
    (paths : List String) : Except String (List String) :=
  if withSubcharts then discoverSubcharts walks paths paths else .ok paths

/-- `WithHelm` from the top: subchart discovery, then the lint loop. -/
def withHelmTop (withSubcharts : Bool) (walks : String → List WalkEvent)
    (quiet : Bool) (loadMeta : String → Except String ChartMeta)
    (lintFn : String → ChartMeta → LintResult) (paths : List String) : HelmOut :=
  match discover withSubcharts walks paths with
  | .error e => .fatal e
  | .ok ps => withHelm quiet loadMeta lintFn ps

/-- The inputs of the three extension-rule checks of `WithBuiltins`:
the extension path (`paths[0]`), the declared image list, the render of
the chart with empty overrides (Rule A's `getTemplateFile`), the renders
with the `global.nodeSelector` / `global.imageRegistry` overrides as
functions of the injected token, and the two random tokens (one fresh
`rand.String(12)` per rule, fixed here for the run). -/
structure BuiltinWorld where
  ext : String
  images : List String
  filesA : Except Unit (List (String × String))
  renderReg : String → Except Unit (List RFile)
  renderNS : String → Except Unit (List RFile)
  keyReg : String
  keyNS : String

/-- The three rules of `WithBuiltins`, in source call order. -/
inductive RuleId where
  | images
  | registry
  | nodeSel
deriving DecidableEq

/-- The findings one rule prints. -/
inductive Findings where
  | fA (msgs : List String)
  | fC (rs : List RegReport)
  | fB (rs : List NSReport)

/-- Run one extension rule against the world. The world is returned
unchanged: no rule mutates anything the other rules read (each receives
its own copy of the chart and renders independently). -/
def runRule (w : BuiltinWorld) : RuleId → Except Unit Findings × BuiltinWorld
  | .images =>
    (match lintExtensionsImages w.ext w.images w.filesA with
     | .error e => .error e
     | .ok msgs => .ok (.fA msgs), w)
  | .registry =>
    (match w.renderReg w.keyReg with
     | .error e => .error e
     | .ok fs =>
       match lintGlobalImageRegistry w.keyReg fs with
       | .error e => .error e
       | .ok rs => .ok (.fC rs), w)
  | .nodeSel =>
    (match w.renderNS w.keyNS with
     | .error e => .error e
     | .ok fs =>
       match lintGlobalNodeSelector w.keyNS fs with
       | .error e => .error e
       | .ok rs => .ok (.fB rs), w)

/-- Run a sequence of extension rules the way `WithBuiltins` does:
sequentially, aborting on the first error, threading whatever state a
rule returns into the next. -/
def runRules : BuiltinWorld → List RuleId → Except Unit (List (RuleId × Findings))
  | _, [] => .ok []
  | w, r :: rs =>
    match runRule w r with
    | (.error e, _) => .error e
    | (.ok f, w') =>
      match runRules w' rs with
      | .error e => .error e
      | .ok out => .ok ((r, f) :: out)

/-- `WithBuiltins`: load the extension, its chart metadata and the chart
from `paths[0]` (combined into `load`; any additional path is never
read), then run the three rules in source order (images, imageRegistry,
nodeSelector). An empty path list models Go's out-of-range panic on
`paths[0]`. -/
def withBuiltins (load : String → Except Unit BuiltinWorld) (paths : List String) :
    Except Unit (List (RuleId × Findings)) :=
  match paths with
  | [] => .error ()
  | p0 :: _ =>
    match load p0 with
    | .error e => .error e
    | .ok w => runRules w [.images, .registry, .nodeSel]

/-! ### Concrete example inputs used by counterexamples and witnesses -/

/-- A decoded Deployment document with no `spec` at all (as rendered by
a template that omits the pod template): the nodeSelector rule's chained
type assertion panics on it. -/
def deployNoSpec : YMap :=
  [("kind", .str "Deployment"), ("metadata", .map [("name", .str "web")])]

/-- A decoded Deployment whose pod spec carries the injected token
`t0` under `nodeSelector`. -/
def deployWithToken : YMap :=
  [("kind", .str "Deployment"),
   ("metadata", .map [("name", .str "web")]),
   ("spec", .map [("template", .map [("spec",
     .map [("nodeSelector", .map [("kubernetes.io/os", .str "t0")])])])])]

/-- A decoded Pod whose only container's image misses the registry
token: Rule C must report it. -/
def podBadImage : YMap :=
  [("kind", .str "Pod"),
   ("metadata", .map [("name", .str "p1")]),
   ("spec", .map [("containers",
     .arr [.map [("name", .str "c"), ("image", .str "other.io/app:1")]])])]

/-- A decoded Pod whose only container has no `image` field: the
`image.(string)` assertion panics on it. -/
def podNoImage : YMap :=
  [("kind", .str "Pod"),
   ("metadata", .map [("name", .str "p2")]),
   ("spec", .map [("containers", .arr [.map [("name", .str "c2")]])])]

/-- A decoded Pod with an init container whose image starts with the
registry token `t1` and a container whose image misses it. -/
def podMixedImages : YMap :=
  [("kind", .str "Pod"),
   ("metadata", .map [("name", .str "p3")]),
   ("spec", .map [
     ("initContainers", .arr [.map [("name", .str "i"), ("image", .str "t1/app:v1")]]),
     ("containers", .arr [.map [("name", .str "c"), ("image", .str "other.io/app:1")]])])]

/-- A decoded DaemonSet with no `nodeSelector` and a container image
missing the token: a violator of both global-override conventions. -/
def daemonSetDoc : YMap :=
  [("kind", .str "DaemonSet"),
   ("metadata", .map [("name", .str "d")]),
   ("spec", .map [("template", .map [("spec",
     .map [("containers",
       .arr [.map [("name", .str "c"), ("image", .str "img:1")]])])])])]

/-- Example metadata loader: every path loads fine. -/
def exLoadMeta : String → Except String ChartMeta := fun _ => .ok "meta"

/-- Example lint engine: chart `a` has one hard error, everything else
is clean. -/
def exLintFn : String → ChartMeta → LintResult := fun p _ =>
  if p = "a" then ⟨[], ["boom"]⟩ else ⟨[], []⟩

/-- Example lint result with a single informational message. -/
def exInfoResult : LintResult := ⟨[⟨infoSev, "info line"⟩], []⟩

/-- Example world for the extension rules: no declared images, empty
renders. -/
def exWorld : BuiltinWorld :=
  ⟨"ext", [], .ok [], fun _ => .ok [], fun _ => .ok [], "kr", "kn"⟩

/-! ## Helper lemmas -/

theorem descend_pathVal : ∀ (ks : List String) (m m' : YMap),
    descend m ks = .ok m' → pathVal (.map m) ks = .map m' := by
  intro ks
  induction ks with
  | nil =>
    intro m m' h
    simp [descend] at h
    simp [pathVal, h]
  | cons k ks ih =>
    intro m m' h
    simp only [descend] at h
    cases hv : (ymGet m k).asMapE with
    | error e => rw [hv] at h; exact absurd h (by simp)
    | ok m2 =>
      rw [hv] at h
      have hm2 : ymGet m k = .map m2 := by
        cases hg : ymGet m k <;> rw [hg] at hv <;> simp [YVal.asMapE] at hv
        rw [hv]
      simp only [pathVal, vGet, hm2]
      exact ih m2 m' h

theorem pathVal_append_one : ∀ (ks : List String) (v : YVal) (k : String),
    pathVal v (ks ++ [k]) = vGet (pathVal v ks) k := by
  intro ks
  induction ks with
  | nil => intro v k; simp [pathVal]
  | cons k0 ks ih => intro v k; simp only [List.cons_append, pathVal]; exact ih _ _

theorem metaNameE_ok (doc : YMap) (nm : YVal) (h : metaNameE doc = .ok nm) :
    nm = metaName doc := by
  unfold metaNameE at h
  cases hm : ymGet doc "metadata" <;> rw [hm] at h <;> simp [YVal.asMapE] at h
  rw [← h]
  simp [metaName, vGet, hm]

theorem nodeSelCheck_ok (key fname k : String) (doc pspec : YMap) (rs : List NSReport)
    (h : nodeSelCheck key fname k doc pspec = .ok rs) :
    rs = if !(vGet (ymGet pspec "nodeSelector") "kubernetes.io/os").eqStr key then
      [⟨fname, k, metaName doc⟩] else [] := by
  unfold nodeSelCheck at h
  cases hns : ymGet pspec "nodeSelector" <;> rw [hns] at h
  case null =>
    cases hmn : metaNameE doc with
    | error e => rw [hmn] at h; simp [YVal.isNull] at h
    | ok nm =>
      rw [hmn] at h
      simp [YVal.isNull] at h
      simp only [vGet, YVal.eqStr, Bool.not_false, if_true]
      rw [← h, metaNameE_ok doc nm hmn]
  case bool b => simp [YVal.isNull, YVal.asMapE] at h
  case num n => simp [YVal.isNull, YVal.asMapE] at h
  case str s => simp [YVal.isNull, YVal.asMapE] at h
  case arr xs => simp [YVal.isNull, YVal.asMapE] at h
  case map kvs =>
    simp only [YVal.isNull, YVal.asMapE, Bool.false_eq_true, if_false] at h
    by_cases heq : (ymGet kvs "kubernetes.io/os").eqStr key = true
    · rw [if_pos heq] at h
      simp at h
      simp [vGet, heq, ← h]
    · rw [if_neg heq] at h
      cases hmn : metaNameE doc with
      | error e => rw [hmn] at h; simp at h
      | ok nm =>
        rw [hmn] at h
        simp at h
        simp only [vGet, Bool.eq_false_iff.mpr heq, Bool.not_false, if_true]
        rw [← h, metaNameE_ok doc nm hmn]

theorem nodeSelBranch_ok (key fname k : String) (doc pspec : YMap) (p : List String)
    (rs : List NSReport) (hd : descend doc p = .ok pspec)
    (h : nodeSelCheck key fname k doc pspec = .ok rs) :
    rs = if nsViolationAt key (.map doc) p then [⟨fname, k, metaName doc⟩] else [] := by
  rw [nodeSelCheck_ok key fname k doc pspec rs h]
  unfold nsViolationAt
  rw [pathVal_append_one, descend_pathVal p doc pspec hd]
  simp [vGet]

theorem lintNodeSelectorDoc_ok (key fname : String) (doc : YMap) (rs : List NSReport)
    (h : lintNodeSelectorDoc key fname doc = .ok rs) :
    rs = specNodeSelDocReports key fname doc := by
  unfold lintNodeSelectorDoc at h
  unfold specNodeSelDocReports
  cases hk : ymGet doc "kind" <;> rw [hk] at h
  case str k =>
    dsimp only at h ⊢
    by_cases h1 : k = "Deployment" ∨ k = "StatefulSet" ∨ k = "ReplicaSet" ∨ k = "Job"
    · rw [if_pos h1] at h ⊢
      cases hd : descend doc ["spec", "template", "spec"] with
      | error e => rw [hd] at h; simp at h
      | ok pspec => rw [hd] at h; exact nodeSelBranch_ok key fname k doc pspec _ rs hd h
    · rw [if_neg h1] at h ⊢
      by_cases h2 : k = "Pod"
      · rw [if_pos h2] at h ⊢
        cases hd : descend doc ["spec"] with
        | error e => rw [hd] at h; simp at h
        | ok pspec => rw [hd] at h; exact nodeSelBranch_ok key fname k doc pspec _ rs hd h
      · rw [if_neg h2] at h ⊢
        by_cases h3 : k = "CronJob"
        · rw [if_pos h3] at h ⊢
          cases hd : descend doc ["spec", "jobTemplate", "spec", "template", "spec"] with
          | error e => rw [hd] at h; simp at h
          | ok pspec => rw [hd] at h; exact nodeSelBranch_ok key fname k doc pspec _ rs hd h
        · rw [if_neg h3] at h ⊢
          simp at h
          simp [← h]
  all_goals simp at h; simp [← h]

theorem lintNodeSelectorDocs_ok (key fname : String) :
    ∀ (ds : List YMap) (rs : List NSReport),
      lintNodeSelectorDocs key fname ds = .ok rs →
      rs = specNodeSelDocsReports key fname ds := by
  intro ds
  induction ds with
  | nil => intro rs h; simp [lintNodeSelectorDocs] at h; simp [specNodeSelDocsReports, ← h]
  | cons d ds ih =>
    intro rs h
    simp only [lintNodeSelectorDocs] at h
    cases h1 : lintNodeSelectorDoc key fname d with
    | error e => rw [h1] at h; simp at h
    | ok r1 =>
      rw [h1] at h
      cases h2 : lintNodeSelectorDocs key fname ds with
      | error e => rw [h2] at h; simp at h
      | ok r2 =>
        rw [h2] at h
        simp at h
        rw [← h, specNodeSelDocsReports, ← lintNodeSelectorDoc_ok key fname d r1 h1,
          ← ih r2 h2]

theorem checkContainers_ok (key fname k : String) (doc : YMap) (isInit : Bool) :
    ∀ (cs : List YVal) (rs : List RegReport),
      checkContainers key fname k doc isInit cs = .ok rs →
      rs = specContainersReports key fname k doc isInit cs := by
  intro cs
  induction cs with
  | nil => intro rs h; simp [checkContainers] at h; simp [specContainersReports, ← h]
  | cons c cs ih =>
    intro rs h
    simp only [checkContainers] at h
    cases c <;> simp only [YVal.asMapE] at h <;> try exact absurd h (by simp)
    case map cm =>
      cases himg : ymGet cm "image" <;> rw [himg] at h <;>
        simp only [YVal.asStrE] at h <;> try exact absurd h (by simp)
      case str img =>
        by_cases hct : goContains img key = true
        · rw [if_pos hct] at h
          simp only [] at h
          cases h2 : checkContainers key fname k doc isInit cs with
          | error e => rw [h2] at h; exact absurd h (by simp)
          | ok rest =>
            rw [h2] at h
            simp at h
            rw [← h]
            simp [specContainersReports, specContainerReport, himg, hct]
            exact ih rest h2
        · rw [if_neg hct] at h
          cases hmn : metaNameE doc with
          | error e => rw [hmn] at h; exact absurd h (by simp)
          | ok nm =>
            rw [hmn] at h
            simp only [] at h
            cases h2 : checkContainers key fname k doc isInit cs with
            | error e => rw [h2] at h; exact absurd h (by simp)
            | ok rest =>
              rw [h2] at h
              simp at h
              rw [← h, metaNameE_ok doc nm hmn]
              simp [specContainersReports, specContainerReport, himg,
                Bool.eq_false_iff.mpr hct]
              exact ih rest h2

theorem regCheckPodSpec_ok (key fname k : String) (doc pspec : YMap) (rs : List RegReport)
    (h : regCheckPodSpec key fname k doc pspec = .ok rs) :
    rs = specPodSpecReports key fname k doc (.map pspec) := by
  unfold regCheckPodSpec at h
  unfold specPodSpecReports
  simp only [vGet]
  cases hi : ymGet pspec "initContainers" <;> rw [hi] at h <;>
    simp only [YVal.asArrOk] at h
  case arr ics =>
    cases hic : checkContainers key fname k doc true ics with
    | error e => rw [hic] at h; exact absurd h (by simp)
    | ok irs =>
      rw [hic] at h
      simp only [] at h
      cases hc : ymGet pspec "containers" <;> rw [hc] at h <;>
        simp only [YVal.asArrOk] at h
      case arr ccs =>
        cases hcc : checkContainers key fname k doc false ccs with
        | error e => rw [hcc] at h; exact absurd h (by simp)
        | ok crs =>
          rw [hcc] at h
          simp at h
          rw [← h]
          simp [checkContainers_ok key fname k doc true ics irs hic,
            checkContainers_ok key fname k doc false ccs crs hcc]
      all_goals
        simp at h
        rw [← h]
        simp [checkContainers_ok key fname k doc true ics irs hic]
  all_goals
    cases hc : ymGet pspec "containers" <;> rw [hc] at h <;>
      simp only [YVal.asArrOk] at h
    case arr ccs =>
      cases hcc : checkContainers key fname k doc false ccs with
      | error e => rw [hcc] at h; exact absurd h (by simp)
      | ok crs =>
        rw [hcc] at h
        simp at h
        rw [← h]
        simp [checkContainers_ok key fname k doc false ccs crs hcc]
    all_goals simp at h; simp [← h]

theorem regBranch_ok (key fname k : String) (doc pspec : YMap) (p : List String)
    (rs : List RegReport) (hd : descend doc p = .ok pspec)
    (h : regCheckPodSpec key fname k doc pspec = .ok rs) :
    rs = specPodSpecReports key fname k doc (pathVal (.map doc) p) := by
  rw [descend_pathVal p doc pspec hd]
  exact regCheckPodSpec_ok key fname k doc pspec rs h

theorem lintImageRegistryDoc_ok (key fname : String) (doc : YMap) (rs : List RegReport)
    (h : lintImageRegistryDoc key fname doc = .ok rs) :
    rs = specRegDocReports key fname doc := by
  unfold lintImageRegistryDoc at h
  unfold specRegDocReports
  cases hk : ymGet doc "kind" <;> rw [hk] at h
  case str k =>
    dsimp only at h ⊢
    by_cases h1 : k = "Deployment" ∨ k = "StatefulSet" ∨ k = "DaemonSet" ∨
        k = "ReplicaSet" ∨ k = "Job"
    · rw [if_pos h1] at h ⊢
      cases hd : descend doc ["spec", "template", "spec"] with
      | error e => rw [hd] at h; exact absurd h (by simp)
      | ok pspec => rw [hd] at h; exact regBranch_ok key fname k doc pspec _ rs hd h
    · rw [if_neg h1] at h ⊢
      by_cases h2 : k = "Pod"
      · rw [if_pos h2] at h ⊢
        cases hd : descend doc ["spec"] with
        | error e => rw [hd] at h; exact absurd h (by simp)
        | ok pspec => rw [hd] at h; exact regBranch_ok key fname k doc pspec _ rs hd h
      · rw [if_neg h2] at h ⊢
        by_cases h3 : k = "CronJob"
        · rw [if_pos h3] at h ⊢
          cases hd : descend doc ["spec", "jobTemplate", "spec", "template", "spec"] with
          | error e => rw [hd] at h; exact absurd h (by simp)
          | ok pspec => rw [hd] at h; exact regBranch_ok key fname k doc pspec _ rs hd h
        · rw [if_neg h3] at h ⊢
          simp at h
          simp [← h]
  all_goals simp at h; simp [← h]

theorem lintImageRegistryDocs_ok (key fname : String) :
    ∀ (ds : List YMap) (rs : List RegReport),
      lintImageRegistryDocs key fname ds = .ok rs →
      rs = specRegDocsReports key fname ds := by
  intro ds
  induction ds with
  | nil => intro rs h; simp [lintImageRegistryDocs] at h; simp [specRegDocsReports, ← h]
  | cons d ds ih =>
    intro rs h
    simp only [lintImageRegistryDocs] at h
    cases h1 : lintImageRegistryDoc key fname d with
    | error e => rw [h1] at h; exact absurd h (by simp)
    | ok r1 =>
      rw [h1] at h
      cases h2 : lintImageRegistryDocs key fname ds with
      | error e => rw [h2] at h; exact absurd h (by simp)
      | ok r2 =>
        rw [h2] at h
        simp at h
        rw [← h, specRegDocsReports, ← lintImageRegistryDoc_ok key fname d r1 h1,
          ← ih r2 h2]

/-! ## Claim theorems -/

/-- C2 counterexample: the claim says a Deployment whose
`spec.template.spec.nodeSelector` is absent is reported by Rule B, but on
a document with no `spec` at all the rule's chained type assertion panics
(modelled `.error ()`) instead of reporting — the claim's own reading
(second conjunct) demands a report for that resource. -/
theorem nodeSelector_claim_cex :
    lintGlobalNodeSelector "tok0" [⟨"a.yaml", [deployNoSpec]⟩] = .error () ∧
    specNodeSelDocReports "tok0" "a.yaml" deployNoSpec =
      [⟨"a.yaml", "Deployment", .str "web"⟩] :=
  ⟨rfl, rfl⟩

/-- C2 (amended): whenever Rule B completes without panicking, the
reports are exactly the claim's: one report per decoded document of a
`.yaml`/`.yml` file whose kind is Deployment/StatefulSet/ReplicaSet/Job
(via `spec.template.spec`), Pod (via `spec`) or CronJob (via
`spec.jobTemplate.spec.template.spec`) where `nodeSelector` is absent or
its `kubernetes.io/os` entry is not the token, identified by kind and
name. -/
theorem nodeSelector_reports_of_ok (key : String) (files : List RFile)
    (rs : List NSReport) (h : lintGlobalNodeSelector key files = .ok rs) :
    rs = specNodeSelReports key files := by
  induction files generalizing rs with
  | nil => simp [lintGlobalNodeSelector] at h; simp [specNodeSelReports, ← h]
  | cons f fs ih =>
    simp only [lintGlobalNodeSelector] at h
    by_cases hy : isYamlName f.name = true
    · rw [if_pos hy] at h
      cases h1 : lintNodeSelectorDocs key f.name f.docs with
      | error e => rw [h1] at h; exact absurd h (by simp)
      | ok r1 =>
        rw [h1] at h
        cases h2 : lintGlobalNodeSelector key fs with
        | error e => rw [h2] at h; exact absurd h (by simp)
        | ok r2 =>
          rw [h2] at h
          simp at h
          rw [← h, specNodeSelReports, if_pos hy,
            ← lintNodeSelectorDocs_ok key f.name f.docs r1 h1, ← ih r2 h2]
    · rw [if_neg hy] at h
      rw [specNodeSelReports, if_neg hy]
      exact ih rs h

/-- C2 witness: a Deployment carrying the token under
`spec.template.spec.nodeSelector.kubernetes.io/os` is not reported. -/
theorem nodeSelector_reports_of_ok_witness :
    ([] : List NSReport) = specNodeSelReports "t0" [⟨"a.yaml", [deployWithToken]⟩] :=
  nodeSelector_reports_of_ok "t0" [⟨"a.yaml", [deployWithToken]⟩] [] rfl

/-- C3 counterexample: the claim says Rule C checks every container entry
and reports exactly those whose image lacks the token, but a Pod whose
container has no `image` string makes the `image.(string)` assertion
panic (`.error ()`), so even the reportable container of the first
document ends up unreported — no report list is produced at all. -/
theorem imageRegistry_claim_cex :
    lintGlobalImageRegistry "t1" [⟨"a.yaml", [podBadImage, podNoImage]⟩] = .error () ∧
    specRegDocReports "t1" "a.yaml" podBadImage =
      [⟨.str "c", false, "a.yaml", "Pod", .str "p1"⟩] :=
  ⟨rfl, rfl⟩

/-- C3 (amended): whenever Rule C completes without panicking, the
reports are exactly the claim's: for every decoded document of a handled
kind (Deployment/StatefulSet/DaemonSet/ReplicaSet/Job via
`spec.template.spec`, Pod via `spec`, CronJob via
`spec.jobTemplate.spec.template.spec`), every entry of `initContainers`
and `containers` whose image does not contain the token, identified by
container name, resource kind and resource name; an image of the form
`<token>/app:v1` is not reported. -/
theorem imageRegistry_reports_of_ok (key : String) (files : List RFile)
    (rs : List RegReport) (h : lintGlobalImageRegistry key files = .ok rs) :
    rs = specRegReports key files := by
  induction files generalizing rs with
  | nil => simp [lintGlobalImageRegistry] at h; simp [specRegReports, ← h]
  | cons f fs ih =>
    simp only [lintGlobalImageRegistry] at h
    by_cases hy : isYamlName f.name = true
    · rw [if_pos hy] at h
      cases h1 : lintImageRegistryDocs key f.name f.docs with
      | error e => rw [h1] at h; exact absurd h (by simp)
      | ok r1 =>
        rw [h1] at h
        cases h2 : lintGlobalImageRegistry key fs with
        | error e => rw [h2] at h; exact absurd h (by simp)
        | ok r2 =>
          rw [h2] at h
          simp at h
          rw [← h, specRegReports, if_pos hy,
            ← lintImageRegistryDocs_ok key f.name f.docs r1 h1, ← ih r2 h2]
    · rw [if_neg hy] at h
      rw [specRegReports, if_neg hy]
      exact ih rs h

/-- C3 witness: in a Pod with an init container whose image starts with
the token and a container whose image lacks it, exactly the latter is
reported, by container name. -/
theorem imageRegistry_reports_of_ok_witness :
    [(⟨.str "c", false, "a.yaml", "Pod", .str "p3"⟩ : RegReport)] =
      specRegReports "t1" [⟨"a.yaml", [podMixedImages]⟩] :=
  imageRegistry_reports_of_ok "t1" [⟨"a.yaml", [podMixedImages]⟩]
    [⟨.str "c", false, "a.yaml", "Pod", .str "p3"⟩] rfl

/-- C4 counterexample: a DaemonSet with no `nodeSelector` at all (and an
image missing the token) produces no Rule B finding — `DaemonSet` is not
in Rule B's switch — while Rule C does report its container, so the
claim that a DaemonSet document is subject to both checks is false. -/
theorem daemonSet_ruleB_cex :
    lintGlobalNodeSelector "k" [⟨"a.yaml", [daemonSetDoc]⟩] = .ok [] ∧
    lintGlobalImageRegistry "k" [⟨"a.yaml", [daemonSetDoc]⟩] =
      .ok [⟨.str "c", false, "a.yaml", "DaemonSet", .str "d"⟩] :=
  ⟨rfl, rfl⟩

/-- C4 (amended): Rule B checks only Deployment, StatefulSet,
ReplicaSet, Job, Pod and CronJob; a DaemonSet document is ignored by the
node-selector check (never reported, never panicking) and is subject to
the image-registry check through the workload `spec.template.spec`
path. -/
theorem daemonSet_only_ruleC (key fname : String) (doc : YMap)
    (h : ymGet doc "kind" = .str "DaemonSet") :
    lintNodeSelectorDoc key fname doc = .ok [] ∧
    ∀ rs, lintImageRegistryDoc key fname doc = .ok rs →
      rs = specPodSpecReports key fname "DaemonSet" doc
        (pathVal (.map doc) ["spec", "template", "spec"]) := by
  constructor
  · unfold lintNodeSelectorDoc
    rw [h]
    simp
  · intro rs hr
    rw [lintImageRegistryDoc_ok key fname doc rs hr]
    unfold specRegDocReports
    rw [h]
    simp

/-- C4 witness: the concrete DaemonSet document instantiates the amended
claim. -/
theorem daemonSet_only_ruleC_witness :
    lintNodeSelectorDoc "k" "a.yaml" daemonSetDoc = .ok [] ∧
    ∀ rs, lintImageRegistryDoc "k" "a.yaml" daemonSetDoc = .ok rs →
      rs = specPodSpecReports "k" "a.yaml" "DaemonSet" daemonSetDoc
        (pathVal (.map daemonSetDoc) ["spec", "template", "spec"]) :=
  daemonSet_only_ruleC "k" "a.yaml" daemonSetDoc rfl

theorem errMsgFor_inj (a b : String) (h : errMsgFor a = errMsgFor b) : a = b := by
  unfold errMsgFor at h
  have hd := congrArg String.data h
  simp only [String.data_append, toString, List.append_assoc] at hd
  exact String.ext (List.append_cancel_right (List.append_cancel_left hd))

theorem count_map_errMsg (img : String) :
    ∀ l : List String, (l.map errMsgFor).count (errMsgFor img) = l.count img := by
  intro l
  induction l with
  | nil => simp
  | cons a l ih =>
    simp only [List.map_cons, List.count_cons, ih]
    congr 1
    by_cases hab : a = img
    · simp [hab]
    · have hne : errMsgFor a ≠ errMsgFor img := fun e => hab (errMsgFor_inj a img e)
      simp [hab, hne]

theorem imagesScan_count (files : List (String × String)) (img : String)
    (images : List String) :
    (imagesScan images files).count (errMsgFor img) =
      if imageFoundIn files img then 0 else images.count img := by
  unfold imagesScan
  rw [count_map_errMsg]
  by_cases hf : imageFoundIn files img = true
  · rw [if_pos hf]
    refine List.count_eq_zero.mpr ?_
    intro hmem
    have := List.of_mem_filter hmem
    simp [hf] at this
  · rw [if_neg hf]
    rw [List.count_filter]
    simp [Bool.eq_false_iff.mpr hf]

/-- C5 counterexample: the image string `img` occurs verbatim in a
rendered file (`NOTES.txt`), yet Rule A reports it as not found — only
`.yaml`/`.yml` files are scanned, not all rendered files. -/
theorem imagesRule_claim_cex :
    lintExtensionsImages "e" ["img"] (.ok [("NOTES.txt", "x img y")]) =
      .ok [errMsgFor "img"] ∧
    goContains "x img y" "img" = true :=
  ⟨rfl, rfl⟩

/-- C5 (amended): once rendering succeeds Rule A never returns an error,
and the "not found" message for an image is emitted zero times when the
image occurs as a substring of some rendered `.yaml`/`.yml` file's
content, and otherwise exactly once per declared occurrence of that
image (so exactly once for a duplicate-free image list). -/
theorem imagesRule_missing_count (ext : String) (images : List String)
    (files : List (String × String)) (img : String) :
    (∃ out, lintExtensionsImages ext images (.ok files) = .ok out) ∧
    (imagesScan images files).count (errMsgFor img) =
      (if imageFoundIn files img then 0 else images.count img) := by
  refine ⟨?_, imagesScan_count files img images⟩
  unfold lintExtensionsImages
  by_cases h : images.isEmpty = true <;> simp [h]

/-- C8: a chart declaring zero images makes Rule A emit exactly the one
warning and return nil, whatever the renderer would do — even a failing
render is never consulted, so no template is rendered and no substring
scan happens. -/
theorem imagesRule_no_images (ext : String)
    (render : Except Unit (List (String × String))) :
    lintExtensionsImages ext [] render = .ok [noImagesWarning ext] := rfl

theorem subchartWalkFn_snd (acc : List String) (ev : WalkEvent) :
    (subchartWalkFn acc ev).2 = none := by
  unfold subchartWalkFn
  cases ev.info with
  | none => rfl
  | some nm =>
    dsimp only
    split
    · rfl
    · split <;> rfl

theorem filepathWalk_subchart_none (evs : List WalkEvent) :
    ∀ acc, (filepathWalk subchartWalkFn acc evs).2 = none := by
  induction evs with
  | nil => intro acc; rfl
  | cons e es ih =>
    intro acc
    simp only [filepathWalk]
    rcases hs : subchartWalkFn acc e with ⟨acc', r⟩
    have hr : r = none := by
      have h0 := subchartWalkFn_snd acc e
      rw [hs] at h0
      exact h0
    subst hr
    exact ih acc'

theorem discoverSubcharts_ok (walks : String → List WalkEvent) :
    ∀ (ps acc : List String), ∃ out, discoverSubcharts walks acc ps = .ok out := by
  intro ps
  induction ps with
  | nil => intro acc; exact ⟨acc, rfl⟩
  | cons p ps ih =>
    intro acc
    simp only [discoverSubcharts]
    rcases hw : filepathWalk subchartWalkFn acc (walks p) with ⟨acc', r⟩
    have hr : r = none := by
      have h0 := filepathWalk_subchart_none (walks p) acc
      rw [hw] at h0
      exact h0
    subst hr
    exact ih acc'

/-- C6 counterexample: walking `r/charts` fails (the callback is invoked
with `info == nil` and a non-nil error, as `filepath.Walk` does when the
root cannot be stat'ed), yet discovery succeeds with the original path
list — the callback ignores its error argument and returns nil, so the
claimed immediate abort never happens. -/
theorem walkError_ignored_cex :
    discover true
      (fun _ => [⟨"r/charts", none, some "lstat r/charts: no such file or directory"⟩])
      ["r"] = .ok ["r"] := rfl

/-- C6 (amended): the walk callback always returns nil, so
`filepath.Walk` never yields an error, subchart discovery never fails,
and `WithHelm` always proceeds to the lint loop on the discovered
paths — filesystem errors during the walk (missing or unreadable
`charts/` directories) are silently skipped. -/
theorem discover_never_fails (withSub : Bool) (walks : String → List WalkEvent)
    (quiet : Bool) (loadMeta : String → Except String ChartMeta)
    (lintFn : String → ChartMeta → LintResult) (paths : List String) :
    ∃ ps, discover withSub walks paths = .ok ps ∧
      withHelmTop withSub walks quiet loadMeta lintFn paths =
        withHelm quiet loadMeta lintFn ps := by
  cases withSub with
  | false => exact ⟨paths, rfl, rfl⟩
  | true =>
    obtain ⟨out, hout⟩ := discoverSubcharts_ok walks paths paths
    refine ⟨out, ?_, ?_⟩
    · simpa [discover] using hout
    · unfold withHelmTop discover
      rw [if_pos rfl, hout]

/-- C7: in quiet mode a chart whose result has no warnings and no errors
contributes nothing to the buffered output (its whole block, header
included, is skipped); a chart with at least one warning or error always
contributes its nonempty block; and the message lines printed in quiet
mode are exactly those of severity strictly above informational. -/
theorem quiet_suppression (st : HelmLoopState) (path : String) (r : LintResult) :
    (hasWarningsOrErrors r = false → (withHelmStep true st path r).message = st.message) ∧
    (hasWarningsOrErrors r = true →
      (withHelmStep true st path r).message = st.message ++ chartBlock true path r ∧
      chartBlock true path r ≠ []) ∧
    msgLines true r =
      (r.messages.filter fun m => decide (infoSev < m.severity)).map fun m => m.text := by
  refine ⟨?_, ?_, ?_⟩
  · intro h
    simp [withHelmStep, h]
  · intro h
    refine ⟨by simp [withHelmStep, h], by simp [chartBlock]⟩
  · unfold msgLines
    induction r.messages with
    | nil => simp
    | cons msg ms ih =>
      simp only [List.filterMap_cons, List.filter_cons]
      by_cases hm : infoSev < msg.severity <;> simp [hm] at ih ⊢ <;> exact ih

/-- C7 witness: a chart with one informational message and no errors is
fully suppressed in quiet mode. -/
theorem quiet_suppression_witness :
    (withHelmStep true ⟨[], 0, 0⟩ "p" exInfoResult).message = ([] : List String) :=
  (quiet_suppression ⟨[], 0, 0⟩ "p" exInfoResult).1 rfl

theorem withHelmStep_failed (quiet : Bool) (st : HelmLoopState) (p : String)
    (r : LintResult) :
    (withHelmStep quiet st p r).failed =
      st.failed + (if r.errors.isEmpty then 0 else 1) := by
  unfold withHelmStep
  by_cases hc : (quiet && !hasWarningsOrErrors r) = true
  · rw [if_pos hc]
    have hwe : hasWarningsOrErrors r = false := by
      simp only [Bool.and_eq_true, Bool.not_eq_true'] at hc
      exact hc.2
    have hemp : r.errors.isEmpty = true := by
      unfold hasWarningsOrErrors at hwe
      simp at hwe
      simp [hwe.2]
    simp [hemp]
  · rw [if_neg hc]

theorem helmLoop_ok (quiet : Bool) (loadMeta : String → Except String ChartMeta)
    (lintFn : String → ChartMeta → LintResult) (first : String) (m : ChartMeta)
    (h : loadMeta first = .ok m) :
    ∀ (l : List String) (st : HelmLoopState),
      helmLoop quiet loadMeta lintFn first l st =
        .ok (l.foldl (fun s p => withHelmStep quiet s p (lintFn p m)) st,
          l.map fun p => (p, m)) := by
  intro l
  induction l with
  | nil => intro st; rfl
  | cons p ps ih =>
    intro st
    simp only [helmLoop, h, ih, List.foldl_cons, List.map_cons]

theorem foldl_failed (quiet : Bool) (lintFn : String → ChartMeta → LintResult)
    (m : ChartMeta) :
    ∀ (l : List String) (st : HelmLoopState),
      (l.foldl (fun s p => withHelmStep quiet s p (lintFn p m)) st).failed =
        st.failed + failedCount lintFn m l := by
  intro l
  induction l with
  | nil => intro st; simp [failedCount]
  | cons p ps ih =>
    intro st
    simp only [List.foldl_cons, ih, withHelmStep_failed, failedCount, List.filter_cons]
    by_cases hp : (lintFn p m).errors.isEmpty = true
    · simp [hp, failedCount]
    · simp [hp, failedCount]
      omega

/-- C1: when the per-chart metadata load succeeds, `WithHelm` completes
with summary exactly `"N chart(s) linted, M chart(s) failed"` (N the
number of chart paths, M the number of charts with a nonzero hard-error
count) and returns a non-nil error — the summary itself — precisely when
some chart's lint result has a nonzero hard-error count. The outcome is
a function of the generic lint results alone; the advisory extension
rules play no part in it. -/
theorem withHelm_outcome (quiet : Bool) (loadMeta : String → Except String ChartMeta)
    (lintFn : String → ChartMeta → LintResult) (p0 : String) (ps : List String)
    (m : ChartMeta) (h : loadMeta p0 = .ok m) :
    (∃ printed sp,
      withHelm quiet loadMeta lintFn (p0 :: ps) =
        .done printed
          (mkSummary (p0 :: ps).length (failedCount lintFn m (p0 :: ps))) sp
          (if failedCount lintFn m (p0 :: ps) = 0 then none
           else some (mkSummary (p0 :: ps).length (failedCount lintFn m (p0 :: ps))))) ∧
    (failedCount lintFn m (p0 :: ps) ≠ 0 ↔
      ∃ p ∈ p0 :: ps, (lintFn p m).errors ≠ []) := by
  constructor
  · have hf :
        ((p0 :: ps).foldl (fun s p => withHelmStep quiet s p (lintFn p m))
          ⟨[], 0, 0⟩).failed = failedCount lintFn m (p0 :: ps) := by
      rw [foldl_failed]
      simp
    unfold withHelm
    dsimp only
    rw [helmLoop_ok quiet loadMeta lintFn p0 m h (p0 :: ps) ⟨[], 0, 0⟩]
    dsimp only
    rw [hf]
    by_cases hz : failedCount lintFn m (p0 :: ps) = 0
    · exact ⟨_, _, by simp [hz]; exact ⟨rfl, rfl⟩⟩
    · exact ⟨_, _, by simp [hz, Nat.pos_of_ne_zero hz]; exact ⟨rfl, rfl⟩⟩
  · unfold failedCount
    simp [List.length_eq_zero, List.filter_eq_nil_iff]
    tauto

/-- C1 witness: two charts, the first with one hard error — the summary
reads `2 chart(s) linted, 1 chart(s) failed` and the command fails. -/
theorem withHelm_outcome_witness :
    (∃ printed sp,
      withHelm false exLoadMeta exLintFn ["a", "b"] =
        .done printed
          (mkSummary (["a", "b"] : List String).length
            (failedCount exLintFn "meta" ["a", "b"])) sp
          (if failedCount exLintFn "meta" ["a", "b"] = 0 then none
           else some (mkSummary (["a", "b"] : List String).length
             (failedCount exLintFn "meta" ["a", "b"])))) ∧
    (failedCount exLintFn "meta" ["a", "b"] ≠ 0 ↔
      ∃ p ∈ ["a", "b"], (exLintFn p "meta").errors ≠ []) :=
  withHelm_outcome false exLoadMeta exLintFn "a" ["b"] "meta" rfl

theorem runRule_world (w : BuiltinWorld) (r : RuleId) : (runRule w r).2 = w := by
  cases r <;> rfl

theorem runRules_trace (w : BuiltinWorld) :
    ∀ (order : List RuleId) (out : List (RuleId × Findings)),
      runRules w order = .ok out →
      out.map Prod.fst = order ∧ ∀ rf ∈ out, (runRule w rf.1).1 = .ok rf.2 := by
  intro order
  induction order with
  | nil => intro out h; simp [runRules] at h; simp [h]
  | cons r rs ih =>
    intro out h
    simp only [runRules] at h
    rcases hr : runRule w r with ⟨res, w'⟩
    have hw : w' = w := by rw [← runRule_world w r, hr]
    rw [hr] at h
    cases res with
    | error e => simp at h
    | ok f =>
      dsimp only at h
      rw [hw] at h
      cases h2 : runRules w rs with
      | error e => rw [h2] at h; simp at h
      | ok rest =>
        rw [h2] at h
        simp at h
        obtain ⟨hmap, hmem⟩ := ih rest h2
        rw [← h]
        refine ⟨by simp [hmap], ?_⟩
        intro rf hrf
        rcases List.mem_cons.mp hrf with h1 | h1
        · subst h1; rw [hr]
        · exact hmem rf h1

/-- C9: the three extension-rule checks thread no state — each run
returns the world unchanged — so in whatever order `WithBuiltins` would
call them, every rule's findings in a successful sequence equal those of
running the rule by itself against the same inputs. -/
theorem builtinRules_independent (w : BuiltinWorld) (order : List RuleId)
    (out : List (RuleId × Findings)) (h : runRules w order = .ok out) :
    (out.map Prod.fst = order ∧ ∀ rf ∈ out, (runRule w rf.1).1 = .ok rf.2) ∧
    ∀ r, (runRule w r).2 = w :=
  ⟨runRules_trace w order out h, fun r => runRule_world w r⟩

/-- C9 witness: running the rules in a non-source order on a concrete
world gives each rule its standalone findings. -/
theorem builtinRules_independent_witness :
    ((([(.nodeSel, Findings.fB []), (.images, Findings.fA [noImagesWarning "ext"])] :
        List (RuleId × Findings)).map Prod.fst = [RuleId.nodeSel, RuleId.images] ∧
      ∀ rf ∈ ([(.nodeSel, Findings.fB []),
          (.images, Findings.fA [noImagesWarning "ext"])] : List (RuleId × Findings)),
        (runRule exWorld rf.1).1 = .ok rf.2) ∧
    ∀ r, (runRule exWorld r).2 = exWorld) :=
  builtinRules_independent exWorld [.nodeSel, .images]
    [(.nodeSel, .fB []), (.images, .fA [noImagesWarning "ext"])] rfl

/-- C10: inside `WithHelm`'s loop the metadata passed to the lint engine
is loaded from `paths[0]` for every chart — the trace of lint calls
pairs every path with the one metadata loaded from the first path — and
`WithBuiltins` reads only `paths[0]`: any additional paths can be
replaced without changing its result. -/
theorem metadata_from_first_path (quiet : Bool)
    (loadMeta : String → Except String ChartMeta)
    (lintFn : String → ChartMeta → LintResult) (p0 : String) (l : List String)
    (st : HelmLoopState) (m : ChartMeta) (h : loadMeta p0 = .ok m) :
    (∃ stF, helmLoop quiet loadMeta lintFn p0 l st = .ok (stF, l.map fun p => (p, m))) ∧
    ∀ (load : String → Except Unit BuiltinWorld) (r1 r2 : List String),
      withBuiltins load (p0 :: r1) = withBuiltins load (p0 :: r2) :=
  ⟨⟨_, helmLoop_ok quiet loadMeta lintFn p0 m h l st⟩, fun _ _ _ => rfl⟩

/-- C10 witness: with two chart paths, both lint calls use the metadata
loaded from the first path. -/
theorem metadata_from_first_path_witness :
    (∃ stF, helmLoop false exLoadMeta exLintFn "a" ["a", "b"] ⟨[], 0, 0⟩ =
      .ok (stF, (["a", "b"] : List String).map fun p => (p, "meta"))) ∧
    ∀ (load : String → Except Unit BuiltinWorld) (r1 r2 : List String),
      withBuiltins load ("a" :: r1) = withBuiltins load ("a" :: r2) :=
  metadata_from_first_path false exLoadMeta exLintFn "a" ["a", "b"] ⟨[], 0, 0⟩ "meta" rfl
